import Mathlib

/-!
Verification development for the battle-log event extraction engine of the
Euic-stat-recorder repository (`recorder/app.py`).

The Python engine is shallowly embedded here.  Text is modelled as `List Char`
(ASCII case semantics: Python's `casefold`/`IGNORECASE` agree with
`Char.toLower` on ASCII, and the transcripts handled by the engine are ASCII).
Python floats are modelled as exact rationals `ℚ`; all numerals the engine
parses are decimal literals, so the rational model is the intended real-number
semantics of the percentage arithmetic.  Every regular expression used by the
source is embedded as an explicit backtracking matcher whose candidate order
reproduces `re.search` semantics (leftmost start position, lazy/greedy group
order) for the concrete pattern.
-/

/-- Text is a list of characters.  -/
abbrev Str := List Char

/-- The whitespace set of Python's `str.strip` / `\s` (ASCII fragment). -/
def isPySpace (c : Char) : Bool :=
  c = ' ' || c = '\t' || c = '\n' || c = '\r' || c = '\x0b' || c = '\x0c'

/-- Python `str.strip()`: drop whitespace from both ends. -/
def stripWs (s : Str) : Str :=
  ((s.dropWhile isPySpace).reverse.dropWhile isPySpace).reverse

/-- Python `str.split(sep)` for a one-character separator (keeps empty parts). -/
def splitOnChar (sep : Char) : Str → List Str
  | [] => [[]]
  | c :: rest =>
    match splitOnChar sep rest with
    | [] => if c = sep then [[], []] else [[c]]
    | f :: r => if c = sep then [] :: f :: r else (c :: f) :: r

/-- Helper for Python `str.split()` (split on whitespace runs, no empties). -/
def splitWsAux : Str → Str → List Str
  | curRev, [] => if curRev = [] then [] else [curRev.reverse]
  | curRev, c :: rest =>
    if isPySpace c then
      if curRev = [] then splitWsAux [] rest else curRev.reverse :: splitWsAux [] rest
    else splitWsAux (c :: curRev) rest

/-- Python `str.split()` with no argument. -/
def splitWs (s : Str) : List Str := splitWsAux [] s

/-- Python substring test `needle in hay`. -/
def isSubstr : Str → Str → Bool
  | n, [] => n.isEmpty
  | n, c :: t => n.isPrefixOf (c :: t) || isSubstr n t

/-- Case-insensitive literal match at the head of the input; returns the rest.
Embeds a literal fragment of an `re.IGNORECASE` pattern. -/
def litAt : Str → Str → Option Str
  | [], s => some s
  | _ :: _, [] => none
  | p :: ps, c :: cs => if c.toLower = p.toLower then litAt ps cs else none

/-- Numeric value of a digit string. -/
def natOfDigits (ds : Str) : Nat :=
  ds.foldl (fun a c => a * 10 + (c.toNat - 48)) 0

/-- Kernel-computable subtraction on `ℚ` (equal to `a - b`, see `qSub_eq`;
the library's `Rat.sub` is marked irreducible, which would block evaluation
of concrete parses inside proofs). -/
def qSub (a b : ℚ) : ℚ := Rat.divInt (a.num * b.den - b.num * a.den) (a.den * b.den)

/-- Kernel-computable multiplication on `ℚ` (equal to `a * b`, see `qMul_eq`). -/
def qMul (a b : ℚ) : ℚ := Rat.divInt (a.num * b.num) (a.den * b.den)

/-- Kernel-computable division on `ℚ` (equal to `a / b`, see `qDiv_eq`). -/
def qDiv (a b : ℚ) : ℚ := Rat.divInt (a.num * b.den) (a.den * b.num)

/-- Kernel-computable maximum on `ℚ` (equal to `max a b`, see `qMax_eq`;
also Python's `max`, which returns the first argument on ties). -/
def qMax (a b : ℚ) : ℚ := if a < b then b else a

/-- A decimal literal matched by `\d+(?:\.\d+)?`: integer digits and
(possibly empty) fraction digits. -/
structure NumLit where
  ip : Str
  fp : Str
deriving DecidableEq

/-- Value of a decimal literal, exactly (the `ℚ` model of Python `float()`).
Stated over `Rat.divInt` so that it evaluates in the kernel; `NumLit.val_eq`
restates it as `ip + fp / 10 ^ |fp|`. -/
def NumLit.val (n : NumLit) : ℚ :=
  Rat.divInt
    (Int.ofNat (natOfDigits n.ip * 10 ^ n.fp.length + natOfDigits n.fp))
    (Int.ofNat (10 ^ n.fp.length))

/-- The decimal literal rendered back to text. -/
def NumLit.render (n : NumLit) : Str :=
  n.ip ++ (if n.fp.isEmpty then [] else '.' :: n.fp)

/-- Candidate matches of `\d+(?:\.\d+)?` at the head of the input, in the
backtracking order of the regex engine (greedy optional fraction first).
Each candidate is the captured literal and the remaining input. -/
def numCands (s : Str) : List (NumLit × Str) :=
  let ip := s.takeWhile Char.isDigit
  if ip.isEmpty then []
  else
    let r := s.drop ip.length
    match r with
    | '.' :: r2 =>
      let fp := r2.takeWhile Char.isDigit
      if fp.isEmpty then [(⟨ip, []⟩, r)]
      else [(⟨ip, fp⟩, r2.drop fp.length), (⟨ip, []⟩, r)]
    | _ => [(⟨ip, []⟩, r)]

/-- Fueled helper for `replaceAll` (fuel bounds the scan length). -/
def replaceAllFuel (pat : Str) : Nat → Str → Str
  | 0, s => s
  | _ + 1, [] => []
  | fuel + 1, c :: rest =>
    if pat ≠ [] ∧ pat.isPrefixOf (c :: rest) then
      replaceAllFuel pat fuel ((c :: rest).drop pat.length)
    else c :: replaceAllFuel pat fuel rest

/-- Python `str.replace(pat, "")`: remove every (left-to-right,
non-overlapping) occurrence of `pat`. -/
def replaceAll (pat : Str) (s : Str) : Str :=
  replaceAllFuel pat s.length s

/-- Lookup in the association-list model of a Python `dict`. -/
def getMap (k : Str) : List (Str × ℚ) → Option ℚ
  | [] => none
  | (k', v) :: rest => if k' = k then some v else getMap k rest

/-- Python `dict` assignment `m[k] = v`: replace in place or append. -/
def updMap (k : Str) (v : ℚ) : List (Str × ℚ) → List (Str × ℚ)
  | [] => [(k, v)]
  | (k', v') :: rest => if k' = k then (k, v) :: rest else (k', v') :: updMap k v rest

/-- Digit tail of a Python integer literal, allowing single underscores
between digits (Python `int()` accepts `1_000`). -/
def digitsVal : Nat → Str → Option Nat
  | acc, [] => some acc
  | acc, c :: rest =>
    if c.isDigit then digitsVal (acc * 10 + (c.toNat - 48)) rest
    else if c = '_' then
      match rest with
      | [] => none
      | d :: rest2 => if d.isDigit then digitsVal (acc * 10 + (d.toNat - 48)) rest2 else none
    else none

/-- Unsigned digit sequence for Python `int()`. -/
def pyIntDigits : Str → Option Nat
  | [] => none
  | c :: rest => if c.isDigit then digitsVal (c.toNat - 48) rest else none

/-- Python `int(str)`: strip whitespace, optional sign, digits. -/
def pyInt (s : Str) : Option Int :=
  match stripWs s with
  | '+' :: rest => (pyIntDigits rest).map Int.ofNat
  | '-' :: rest => (pyIntDigits rest).map (fun n => -(n : Int))
  | rest => (pyIntDigits rest).map Int.ofNat

/-- Anchored match of `REPLAY_PERCENT_PATTERN` = `(?P<pct>\d+(?:\.\d+)?)%`
at the current position, returning the captured literal. -/
def pctAt (s : Str) : Option NumLit :=
  (numCands s).findSome? fun nr =>
    match nr.2 with
    | '%' :: _ => some nr.1
    | _ => none

/-- Anchored match of `REPLAY_HP_PATTERN` =
`(?P<hp>\d+(?:\.\d+)?)\s*/\s*(?P<max>\d+(?:\.\d+)?)` at the current position. -/
def ratioAt (s : Str) : Option (NumLit × NumLit) :=
  (numCands s).findSome? fun nr =>
    match nr.2.dropWhile isPySpace with
    | '/' :: r2 =>
      match (numCands (r2.dropWhile isPySpace)).head? with
      | some mr => some (nr.1, mr.1)
      | none => none
    | _ => none

/-- `re.search`: try the anchored matcher at every start position, leftmost
first (including the empty suffix, as Python does). -/
def reSearch (m : Str → Option α) : Str → Option α
  | [] => m []
  | c :: rest =>
    match m (c :: rest) with
    | some a => some a
    | none => reSearch m rest

/-- Lazy one-or-more over a character class (`[...]+?` / `.+?`): try group
lengths in ascending order, handing (group, rest) to the continuation. -/
def classSearch (p : Char → Bool) (f : Str → Str → Option α) : Str → Str → Option α
  | _, [] => none
  | accRev, c :: rest =>
    if p c then
      match f (c :: accRev).reverse rest with
      | some a => some a
      | none => classSearch p f (c :: accRev) rest
    else none

/-- `.` of the regexes: any character except a newline. -/
def isDot (c : Char) : Bool := c ≠ '\n'

/-- Lazy `(.+?)` followed by the continuation `f group rest`. -/
def dotPlusLazy (f : Str → Str → Option α) (s : Str) : Option α :=
  classSearch isDot f [] s

/-- Tail of the attribution suffix: `(?P<actor>.+?)'s (?P<move>.+)`. -/
def actorMove (s : Str) : Option (Str × Str) :=
  dotPlusLazy
    (fun actor r =>
      match litAt (("'s ").toList) r with
      | some r2 =>
        let mv := r2.takeWhile isDot
        if mv.isEmpty then none else some (actor, mv)
      | none => none)
    s

/-- The attribution clause `.*?from (?P<actor>.+?)'s (?P<move>.+)`:
lazy scan for a `from ` occurrence whose tail completes the pattern. -/
def fromClause : Str → Option (Str × Str)
  | [] => (litAt (("from ").toList) []).bind actorMove
  | c :: rest =>
    match (litAt (("from ").toList) (c :: rest)).bind actorMove with
    | some am => some am
    | none => if c = '\n' then none else fromClause rest

/-- Groups of `DAMAGE_RANGE_FROM_PATTERN`:
`(?P<target>.+?) lost (?P<low>\d+(?:\.\d+)?)% - (?P<high>\d+(?:\.\d+)?)%.*?from (?P<actor>.+?)'s (?P<move>.+)`. -/
structure RangeFromGroups where
  target : Str
  low : NumLit
  high : NumLit
  actor : Str
  move : Str
deriving DecidableEq

/-- Groups of `DAMAGE_FROM_PATTERN`. -/
structure DmgFromGroups where
  target : Str
  low : NumLit
  actor : Str
  move : Str
deriving DecidableEq

/-- Groups of `DAMAGE_RANGE_PATTERN`. -/
structure RangeGroups where
  target : Str
  low : NumLit
  high : NumLit
deriving DecidableEq

/-- Groups of `DAMAGE_PATTERN`. -/
structure DmgGroups where
  target : Str
  low : NumLit
deriving DecidableEq

/-- A percentage group `(\d+(?:\.\d+)?)%` followed by the continuation,
respecting the greedy-fraction-first candidate order. -/
def numPct (s : Str) (k : NumLit → Str → Option α) : Option α :=
  (numCands s).findSome? fun nr =>
    match nr.2 with
    | '%' :: r2 => k nr.1 r2
    | _ => none

/-- `DAMAGE_RANGE_FROM_PATTERN` anchored at the current position. -/
def rangeFromAt (s : Str) : Option RangeFromGroups :=
  dotPlusLazy
    (fun tgt rest =>
      match litAt ((" lost ").toList) rest with
      | some r1 =>
        numPct r1 fun low r2 =>
          match litAt ((" - ").toList) r2 with
          | some r3 =>
            numPct r3 fun high r4 =>
              match fromClause r4 with
              | some am => some ⟨tgt, low, high, am.1, am.2⟩
              | none => none
          | none => none
      | none => none)
    s

/-- `DAMAGE_RANGE_FROM_PATTERN.search`. -/
def rangeFromSearch : Str → Option RangeFromGroups := reSearch rangeFromAt

/-- `DAMAGE_RANGE_PATTERN` anchored at the current position. -/
def rangeAt (s : Str) : Option RangeGroups :=
  dotPlusLazy
    (fun tgt rest =>
      match litAt ((" lost ").toList) rest with
      | some r1 =>
        numPct r1 fun low r2 =>
          match litAt ((" - ").toList) r2 with
          | some r3 => numPct r3 fun high _ => some ⟨tgt, low, high⟩
          | none => none
      | none => none)
    s

/-- `DAMAGE_RANGE_PATTERN.search`. -/
def rangeSearch : Str → Option RangeGroups := reSearch rangeAt

/-- `DAMAGE_FROM_PATTERN` anchored at the current position. -/
def dmgFromAt (s : Str) : Option DmgFromGroups :=
  dotPlusLazy
    (fun tgt rest =>
      match litAt ((" lost ").toList) rest with
      | some r1 =>
        numPct r1 fun low r2 =>
          match fromClause r2 with
          | some am => some ⟨tgt, low, am.1, am.2⟩
          | none => none
      | none => none)
    s

/-- `DAMAGE_FROM_PATTERN.search`. -/
def dmgFromSearch : Str → Option DmgFromGroups := reSearch dmgFromAt

/-- `DAMAGE_PATTERN` anchored at the current position (its optional trailing
`(?:\s*\(.*?\))?` can never affect success or the captured groups). -/
def dmgAt (s : Str) : Option DmgGroups :=
  dotPlusLazy
    (fun tgt rest =>
      match litAt ((" lost ").toList) rest with
      | some r1 => numPct r1 fun low _ => some ⟨tgt, low⟩
      | none => none)
    s

/-- `DAMAGE_PATTERN.search`. -/
def dmgSearch : Str → Option DmgGroups := reSearch dmgAt

/-- `TURN_PATTERN` = `^Turn\s+(?P<turn>\d+)` (anchored, so search = match
at the start), composed with `int()` on the digit group. -/
def turnMatch (s : Str) : Option Nat :=
  match litAt (("turn").toList) s with
  | some r1 =>
    let sp := r1.takeWhile isPySpace
    if sp.isEmpty then none
    else
      let r2 := r1.drop sp.length
      let ds := r2.takeWhile Char.isDigit
      if ds.isEmpty then none else some (natOfDigits ds)
  | none => none

/-- `MOVE_USED_PATTERN` = `^(?P<actor>.+?) used (?P<move>.+?)!` (anchored). -/
def moveUsedMatch (s : Str) : Option (Str × Str) :=
  dotPlusLazy
    (fun actor r =>
      match litAt ((" used ").toList) r with
      | some r1 =>
        dotPlusLazy
          (fun mv r2 =>
            match r2 with
            | '!' :: _ => some (actor, mv)
            | _ => none)
          r1
      | none => none)
    s

/-- The character class `[A-Za-z0-9' -]` of the item patterns. -/
def isItemChar (c : Char) : Bool :=
  c.isAlpha || c.isDigit || (("' -").toList).contains c

/-- First alternative of `ITEM_PATTERNS`:
`(?P<actor>.+?)'s (?P<item>[A-Za-z0-9' -]+?) (?:restored|activated|went|made|triggered)`. -/
def item1At (s : Str) : Option Str :=
  dotPlusLazy
    (fun actor r =>
      match litAt (("'s ").toList) r with
      | some r1 =>
        classSearch isItemChar
          (fun _ r2 =>
            match litAt ((" ").toList) r2 with
            | some r3 =>
              ([("restored"), ("activated"), ("went"), ("made"), ("triggered")].map
                  String.toList).findSome? fun v => (litAt v r3).map fun _ => actor
            | none => none)
          [] r1
      | none => none)
    s

/-- Second alternative of `ITEM_PATTERNS`:
`(?P<actor>.+?) had its (?P<item>[A-Za-z0-9' -]+?) (?:restored|activated|used|triggered)`. -/
def item2At (s : Str) : Option Str :=
  dotPlusLazy
    (fun actor r =>
      match litAt ((" had its ").toList) r with
      | some r1 =>
        classSearch isItemChar
          (fun _ r2 =>
            match litAt ((" ").toList) r2 with
            | some r3 =>
              ([("restored"), ("activated"), ("used"), ("triggered")].map
                  String.toList).findSome? fun v => (litAt v r3).map fun _ => actor
            | none => none)
          [] r1
      | none => none)
    s

/-- Third alternative of `ITEM_PATTERNS`:
`(?P<actor>.+?) used its (?P<item>[A-Za-z0-9' -]+?)` (the lazy trailing class
matches a single class character). -/
def item3At (s : Str) : Option Str :=
  dotPlusLazy
    (fun actor r =>
      match litAt ((" used its ").toList) r with
      | some r1 => classSearch isItemChar (fun _ _ => some actor) [] r1
      | none => none)
    s

/-- The item cascade: `for pattern in ITEM_PATTERNS: ... break` — first
pattern whose search succeeds yields the actor group. -/
def itemCascade (s : Str) : Option Str :=
  match reSearch item1At s with
  | some a => some a
  | none =>
    match reSearch item2At s with
    | some a => some a
    | none => reSearch item3At s

/-- `normalize_name`: casefold, collapse every run of characters outside
`[a-z0-9]` to a single space, strip.  Helper: the collapse pass; the flag
records whether we are inside a run already replaced by a space. -/
def squashGo : Bool → Str → Str
  | _, [] => []
  | inRun, c :: rest =>
    if ('a' ≤ c ∧ c ≤ 'z') ∨ c.isDigit then c :: squashGo false rest
    else if inRun then squashGo true rest
    else ' ' :: squashGo true rest

/-- `normalize_name(value)` from the source (`casefold` modelled by ASCII
`Char.toLower`). -/
def normalizeName (s : Str) : Str :=
  stripWs (squashGo false (s.map Char.toLower))

/-- `_detect_side_token(normalized)`: first whitespace token starting with
`p1` or `p2`. -/
def detectSideToken (normalized : Str) : Option Str :=
  if normalized = [] then none
  else
    (splitWs normalized).findSome? fun tok =>
      if (("p1").toList).isPrefixOf tok then some (("p1").toList)
      else if (("p2").toList).isPrefixOf tok then some (("p2").toList)
      else none

/-- `classify_owner(text, nicknames, my_side)`.  `text` and `my_side` are
optional strings (Python `None`); `nicknames` is the insertion-ordered
`dict[str, list[str]]` as an association list.  Python truthiness of strings
is `≠ []`. -/
def classifyOwner (text : Option Str) (nicknames : List (Str × List Str))
    (mySide : Option Str) : Option Str :=
  match text with
  | none => none
  | some t =>
    if t = [] then none
    else
      let normalized := normalizeName t
      if isSubstr (("opposing").toList) normalized || isSubstr (("foe").toList) normalized then
        some (("opponent").toList)
      else
        let sideResult : Option Str :=
          match mySide with
          | none => none
          | some ms =>
            if ms = [] then none
            else
              match detectSideToken normalized with
              | some tok => if tok = ms then some (("mine").toList) else some (("opponent").toList)
              | none => none
        match sideResult with
        | some r => some r
        | none =>
          nicknames.findSome? fun sn =>
            sn.2.findSome? fun name =>
              if name = [] then none
              else if ¬ (normalizeName name).isEmpty ∧
                  isSubstr (normalizeName name) normalized then some sn.1
              else none

/-- Whether a known name matches a normalized line in `infer_my_side`:
its normalization is non-empty and a substring of the line's. -/
def nameMatches (normalized : Str) (name : Str) : Bool :=
  !(normalizeName name).isEmpty && isSubstr (normalizeName name) normalized

/-- The counting loop of `infer_my_side`: per line, detect a slot token and
the first matching known name (`break` after the first); accumulate
(p1_hits, p2_hits). -/
def inferHits (nameList : List Str) : List Str → Nat × Nat
  | [] => (0, 0)
  | l :: rest =>
    let prev := inferHits nameList rest
    let normalized := normalizeName l
    match detectSideToken normalized with
    | none => prev
    | some side =>
      match nameList.find? (nameMatches normalized) with
      | some _ =>
        if side = ("p1").toList then (prev.1 + 1, prev.2)
        else if side = ("p2").toList then (prev.1, prev.2 + 1)
        else prev
      | none => prev

/-- `infer_my_side` restricted to its pure core: the SQL query that feeds it
(the up-to-2000 most recent retained lines) is the caller-supplied `lines`
argument here. -/
def inferMySide (lines : List Str) (myNames : List Str) : Option Str :=
  let nameList := myNames.filter (fun n => n ≠ [])
  if nameList = [] then none
  else
    let hits := inferHits nameList lines
    if hits.1 = 0 ∧ hits.2 = 0 then none
    else if hits.1 = hits.2 then none
    else if hits.2 < hits.1 then some (("p1").toList) else some (("p2").toList)

/-- Python truthiness of an optional string. -/
def optTruthy (o : Option Str) : Bool :=
  match o with
  | some l => !l.isEmpty
  | none => false

/-- `compute_result(meta)`: the meta dict is its three consulted fields,
each an optional string. -/
def computeResult (winner player1 player2 : Option Str) : Option Str :=
  if !optTruthy winner || !optTruthy player1 then none
  else
    match winner, player1 with
    | some w, some p1 =>
      if normalizeName w = normalizeName p1 then some (("Won").toList)
      else
        match player2 with
        | some p2 =>
          if !p2.isEmpty && (decide (normalizeName w = normalizeName p2)) then
            some (("Lost").toList)
          else none
        | none => none
    | _, _ => none

/-- A structured domain event (row shape of the `events` table insert). -/
structure Event where
  eventType : Str
  actor : Option Str
  target : Option Str
  move : Option Str
  turn : Option Int
  valueLow : Option ℚ
  valueHigh : Option ℚ
  rawLine : Str
deriving DecidableEq

/-- A retained log line. -/
structure LogLine where
  turn : Option Int
  rawLine : Str
deriving DecidableEq

/-- The rolling parse state threaded through `parse_log_stream`.  A loaded
state dict that lacks the `hp_pct` key behaves exactly like `hpPct = []`
because the engine reads it with `state.get("hp_pct", {})`. -/
structure ParseState where
  turn : Option Int
  lastActor : Option Str
  lastMove : Option Str
  hpPct : List (Str × ℚ)
deriving DecidableEq

/-- The empty prior state (`state={}`). -/
def emptyState : ParseState := ⟨none, none, none, []⟩

/-- The result dict of `parse_replay_line` (all keys optional). -/
structure ReplayParsed where
  turn : Option Int := none
  actor : Option Str := none
  move : Option Str := none
  target : Option Str := none
  event : Option Str := none
  targetKey : Option Str := none
  currentHpPct : Option ℚ := none
  valueLow : Option ℚ := none
  valueHigh : Option ℚ := none
deriving DecidableEq

/-- Scan for the first occurrence of `": "`; return the tail after it. -/
def splitColonSpace : Str → Option Str
  | [] => none
  | ':' :: ' ' :: tail => some tail
  | _ :: rest => splitColonSpace rest

/-- `_strip_replay_prefix(value)`: drop everything through the first `": "`
if present, then strip. -/
def stripTag (s : Str) : Str :=
  match splitColonSpace s with
  | some tail => stripWs tail
  | none => stripWs s

/-- `clean_damage_target(value)`: strip, remove leading `(`s, delete every
occurrence of `"The opposing "`, `"the opposing "`, `"The "`, `"the "`
(case-sensitive, in that order), remove trailing `)`s, strip. -/
def cleanDamageTarget (v : Str) : Str :=
  let c1 := stripWs v
  let c2 := c1.dropWhile (fun c => c = '(')
  let c3 := replaceAll (("The opposing ").toList) c2
  let c4 := replaceAll (("the opposing ").toList) c3
  let c5 := replaceAll (("The ").toList) c4
  let c6 := replaceAll (("the ").toList) c5
  let c7 := (c6.reverse.dropWhile (fun c => c = ')')).reverse
  stripWs c7

/-- `_parse_replay_hp(hp_text)`: literal percent first, else ratio scaled to
a percentage when the denominator is positive. -/
def parseReplayHp (hpText : Str) : Option ℚ :=
  if hpText = [] then none
  else
    match reSearch pctAt hpText with
    | some n => some n.val
    | none =>
      match reSearch ratioAt hpText with
      | some ab =>
        if 0 < ab.2.val then some (qMul (qDiv ab.1.val ab.2.val) 100) else none
      | none => none

/-- `parse_replay_line(line)`.  Fields are accessed with `getD` (`parts[i]`
is always in range when the guarding length test holds).  Branch guards are
written as conjunctions: in the source a tag whose length guard fails falls
through every later branch and returns the empty dict, which is the same
result. -/
def parseReplayLine (line : Str) : ReplayParsed :=
  let parts := splitOnChar '|' line
  if parts.length < 2 then {}
  else
    let tag := parts.getD 1 []
    if tag = ("turn").toList ∧ 2 < parts.length then
      { turn := pyInt (parts.getD 2 []) }
    else if tag = ("move").toList ∧ 3 < parts.length then
      if 4 < parts.length then
        { actor := some (stripTag (parts.getD 2 [])),
          move := some (stripWs (parts.getD 3 [])),
          target := some (stripTag (parts.getD 4 [])) }
      else
        { actor := some (stripTag (parts.getD 2 [])),
          move := some (stripWs (parts.getD 3 [])) }
    else if (tag = ("switch").toList ∨ tag = ("drag").toList ∨ tag = ("replace").toList)
        ∧ 4 < parts.length then
      match parseReplayHp (parts.getD 4 []) with
      | some pct =>
        { event := some (("hp_update").toList),
          targetKey := some (stripWs (parts.getD 2 [])),
          currentHpPct := some pct }
      | none => {}
    else if tag = ("-damage").toList ∧ 3 < parts.length then
      match parseReplayHp (parts.getD 3 []) with
      | some pct =>
        { event := some (("damage").toList),
          target := some (cleanDamageTarget (stripTag (parts.getD 2 []))),
          targetKey := some (stripWs (parts.getD 2 [])),
          currentHpPct := some pct,
          valueLow := some pct,
          valueHigh := some pct }
      | none => {}
    else {}

/-- One protocol-dialect line of the `parse_log_stream` loop body (the line
is already stripped and starts with `|`). -/
def stepProtocol (s : ParseState) (line : Str) : List Event × ParseState × List LogLine :=
  let parsed := parseReplayLine line
  let turn1 : Option Int :=
    match parsed.turn with
    | some t => some t
    | none => s.turn
  let actor1 : Option Str :=
    match parsed.actor with
    | some a => if a ≠ [] then some a else s.lastActor
    | none => s.lastActor
  let move1 : Option Str :=
    match parsed.move with
    | some m => if m ≠ [] then some m else s.lastMove
    | none => s.lastMove
  match parsed.event with
  | none => ([], ⟨turn1, actor1, move1, s.hpPct⟩, [⟨turn1, line⟩])
  | some ev =>
    if ev = [] then ([], ⟨turn1, actor1, move1, s.hpPct⟩, [⟨turn1, line⟩])
    else if ev = ("hp_update").toList then
      let hp1 :=
        match parsed.targetKey, parsed.currentHpPct with
        | some k, some p => if k ≠ [] then updMap k p s.hpPct else s.hpPct
        | _, _ => s.hpPct
      ([], ⟨turn1, actor1, move1, hp1⟩, [⟨turn1, line⟩])
    else
      let actorE :=
        match parsed.actor with
        | some a => some a
        | none => actor1
      let moveE :=
        match parsed.move with
        | some m => some m
        | none => move1
      if ev = ("damage").toList then
        match parsed.targetKey, parsed.currentHpPct with
        | some k, some p =>
          if k ≠ [] then
            let prev := getMap k s.hpPct
            let hp1 := updMap k p s.hpPct
            let vl : Option ℚ :=
              match prev with
              | some pr => some (qMax (qSub pr p) 0)
              | none => none
            ([⟨ev, actorE, parsed.target, moveE, turn1, vl, vl, line⟩],
             ⟨turn1, actor1, move1, hp1⟩, [⟨turn1, line⟩])
          else
            ([⟨ev, actorE, parsed.target, moveE, turn1, parsed.valueLow, parsed.valueHigh, line⟩],
             ⟨turn1, actor1, move1, s.hpPct⟩, [⟨turn1, line⟩])
        | _, _ =>
          ([⟨ev, actorE, parsed.target, moveE, turn1, parsed.valueLow, parsed.valueHigh, line⟩],
           ⟨turn1, actor1, move1, s.hpPct⟩, [⟨turn1, line⟩])
      else
        ([⟨ev, actorE, parsed.target, moveE, turn1, parsed.valueLow, parsed.valueHigh, line⟩],
         ⟨turn1, actor1, move1, s.hpPct⟩, [⟨turn1, line⟩])

/-- Current turn after the narrative turn marker. -/
def narTurn (s : ParseState) (line : Str) : Option Int :=
  match turnMatch line with
  | some n => some (n : Int)
  | none => s.turn

/-- Rolling (last_actor, last_move) after the narrative `used` marker. -/
def narActorMove (s : ParseState) (line : Str) : Option Str × Option Str :=
  match moveUsedMatch line with
  | some am => (some (stripWs am.1), some (stripWs am.2))
  | none => (s.lastActor, s.lastMove)

/-- Item event of a narrative line (at most one; first matching pattern). -/
def itemEvents (line : Str) (turn : Option Int) : List Event :=
  match itemCascade line with
  | some actor =>
    [⟨("item").toList, some (stripWs actor), none, none, turn, none, none, line⟩]
  | none => []

/-- The narrative damage cascade in the order the source tries the patterns:
attributed range (`DAMAGE_RANGE_FROM_PATTERN`), bare range
(`DAMAGE_RANGE_PATTERN`), attributed single value (`DAMAGE_FROM_PATTERN`),
bare single value (`DAMAGE_PATTERN`); the first match alone determines the
event. -/
def damageCascade (line : Str) (turn : Option Int) (actor mv : Option Str) : List Event :=
  match rangeFromSearch line with
  | some g =>
    [⟨("damage").toList, some (stripWs g.actor), some (stripWs g.target),
      some (stripWs g.move), turn, some g.low.val, some g.high.val, line⟩]
  | none =>
    match rangeSearch line with
    | some g =>
      [⟨("damage").toList, actor, some (cleanDamageTarget g.target), mv, turn,
        some g.low.val, some g.high.val, line⟩]
    | none =>
      match dmgFromSearch line with
      | some g =>
        [⟨("damage").toList, some (stripWs g.actor), some (stripWs g.target),
          some (stripWs g.move), turn, some g.low.val, some g.low.val, line⟩]
      | none =>
        match dmgSearch line with
        | some g =>
          [⟨("damage").toList, actor, some (cleanDamageTarget g.target), mv, turn,
            some g.low.val, some g.low.val, line⟩]
        | none => []

/-- One narrative-dialect line of the `parse_log_stream` loop body (the line
is already stripped, non-empty and does not start with `|`). -/
def stepNarrative (s : ParseState) (line : Str) : List Event × ParseState × List LogLine :=
  let turn1 := narTurn s line
  let am := narActorMove s line
  (itemEvents line turn1 ++ damageCascade line turn1 am.1 am.2,
   ⟨turn1, am.1, am.2, s.hpPct⟩, [⟨turn1, line⟩])

/-- One full iteration of the `parse_log_stream` loop: strip, drop empty
lines, route on the leading `|`. -/
def stepLine (s : ParseState) (raw : Str) : List Event × ParseState × List LogLine :=
  let line := stripWs raw
  if line = [] then ([], s, [])
  else if line.head? = some '|' then stepProtocol s line
  else stepNarrative s line

/-- `parse_log_stream(lines, state)`: fold the loop body over the lines,
concatenating events and log lines. -/
def parseLogStream : List Str → ParseState → List Event × ParseState × List LogLine
  | [], s => ([], s, [])
  | l :: ls, s =>
    let r1 := stepLine s l
    let r2 := parseLogStream ls r1.2.1
    (r1.1 ++ r2.1, r2.2.1, r1.2.2 ++ r2.2.2)

/-- A row of the `match_state` table. -/
structure StateRow where
  lastTurn : Option Int
  lastActor : Option Str
  lastMove : Option Str
deriving DecidableEq

/-- The `match_state` table keyed by `match_id` (primary key). -/
def StateDb := List (Nat × StateRow)

/-- Row lookup by primary key. -/
def dbGet (db : StateDb) (matchId : Nat) : Option StateRow :=
  match db with
  | [] => none
  | r :: rest => if r.1 = matchId then some r.2 else dbGet rest matchId

/-- `INSERT OR REPLACE` on the primary key. -/
def dbPut (db : StateDb) (matchId : Nat) (row : StateRow) : StateDb :=
  match db with
  | [] => [(matchId, row)]
  | r :: rest => if r.1 = matchId then (matchId, row) :: rest else r :: dbPut rest matchId row

/-- `update_match_state(match_id, state)`: persists only `turn`,
`last_actor` and `last_move` — the table has no column for `hp_pct`. -/
def updateMatchState (db : StateDb) (matchId : Nat) (state : ParseState) : StateDb :=
  dbPut db matchId ⟨state.turn, state.lastActor, state.lastMove⟩

/-- `get_match_state(match_id)`: returns (possibly updated db, loaded state).
The returned dict has no `hp_pct` key; since `parse_log_stream` reads
`state.get("hp_pct", {})`, that is observationally the state with an empty
`hpPct`, which is how it is modelled. -/
def getMatchState (db : StateDb) (matchId : Nat) : StateDb × ParseState :=
  match dbGet db matchId with
  | none => (dbPut db matchId ⟨none, none, none⟩, ⟨none, none, none, []⟩)
  | some row => (db, ⟨row.lastTurn, row.lastActor, row.lastMove, []⟩)

/-- Spec-side count for side inference, following the spec's words: a line
co-occurs with a slot when its detected slot token is that slot and at least
one known name matches (first match only — which name matched is irrelevant
to the count); each line counts at most once. -/
def specSlotHits (slot : Str) (myNames : List Str) (lines : List Str) : Nat :=
  (lines.filter fun l =>
    decide (detectSideToken (normalizeName l) = some slot) &&
    myNames.any (nameMatches (normalizeName l))).length

/-- Spec-side result-label function, following the amended claim's words:
`Won` when winner and player1 are present, non-empty and normalize equal;
`Lost` when winner and player1 are present and non-empty, the `Won` test
fails, and player2 is present, non-empty and normalize-equal to the winner;
no label otherwise. -/
def computeResultSpec (winner player1 player2 : Option Str) : Option Str :=
  match winner, player1 with
  | some w, some p1 =>
    if w ≠ [] ∧ p1 ≠ [] then
      if normalizeName w = normalizeName p1 then some (("Won").toList)
      else
        match player2 with
        | some p2 =>
          if p2 ≠ [] ∧ normalizeName w = normalizeName p2 then some (("Lost").toList)
          else none
        | none => none
    else none
  | _, _ => none

/-- The pairing invariant of an event: `value_low` and `value_high` are both
present or both absent. -/
def eventValuesPaired (e : Event) : Bool :=
  e.valueLow.isSome == e.valueHigh.isSome

/-- The value invariant of an event: `value_low`/`value_high` both present or
both absent, and `value_low ≤ value_high` when present. -/
def eventValuesWf (e : Event) : Bool :=
  (e.valueLow.isSome == e.valueHigh.isSome) &&
  (match e.valueLow, e.valueHigh with
   | some a, some b => decide (a ≤ b)
   | _, _ => true)

/-- Whether every range-pattern match on a line captures its two percent
literals in non-decreasing order (the regexes do not enforce this). -/
def rangeLitsOrdered (l : Str) : Bool :=
  (match rangeFromSearch l with
   | some g => decide (g.low.val ≤ g.high.val)
   | none => true) &&
  (match rangeSearch l with
   | some g => decide (g.low.val ≤ g.high.val)
   | none => true)

/-- The spec's worked narrative example line. -/
def exNarrativeLine : Str :=
  ("Opposing Giraffe lost 23.5% of its health from Eddie bear's Close Combat").toList

/-- A narrative line matched by the attributed-single-value pattern and the
bare-range pattern but not the attributed-range pattern. -/
def exCascadeLine : Str := ("X lost 3% from A's M, lost 1% - 2%").toList

/-- A narrative line whose range literals are written high-to-low. -/
def exInvertedRangeLine : Str := ("X lost 3% - 1% from A's M").toList

/-- A protocol damage line whose target-key field is empty. -/
def exEmptyKeyLine : Str := ("|-damage||50%").toList

/-- The spec's worked protocol damage line. -/
def exProtoDamageLine : Str := ("|-damage|p2a: Cat|62/100").toList

/-- A prior state recording a 100% HP reading for the `p2a: Cat` key. -/
def exCatState : ParseState := ⟨none, none, none, [((("p2a: Cat").toList), 100)]⟩

/-- Whether an event is a damage event. -/
def isDamageEvent (e : Event) : Bool := e.eventType == ("damage").toList

/-- Well-formedness of a decimal literal: non-empty integer part, all
digits. -/
def NumLit.wf (n : NumLit) : Prop :=
  n.ip ≠ [] ∧ (∀ c ∈ n.ip, c.isDigit = true) ∧ (∀ c ∈ n.fp, c.isDigit = true)

theorem dbGet_dbPut (db : StateDb) (matchId : Nat) (row : StateRow) :
    dbGet (dbPut db matchId row) matchId = some row := by
  induction db with
  | nil => simp [dbGet, dbPut]
  | cons r rest ih =>
    by_cases h : r.1 = matchId
    · simp [dbGet, dbPut, h]
    · simp [dbGet, dbPut, h, ih]

/-- C1: parsing a concatenation of line batches from any prior state equals
parsing the first batch and then the second from the returned state — events
concatenate, log lines concatenate, and the final state is identical.
Feeding a transcript one line at a time with the state threaded between
calls is the `ys := [l]` instance, iterated. -/
theorem parseLogStream_append (xs ys : List Str) (s : ParseState) :
    parseLogStream (xs ++ ys) s =
      ((parseLogStream xs s).1 ++ (parseLogStream ys (parseLogStream xs s).2.1).1,
       (parseLogStream ys (parseLogStream xs s).2.1).2.1,
       (parseLogStream xs s).2.2 ++ (parseLogStream ys (parseLogStream xs s).2.1).2.2) := by
  induction xs generalizing s with
  | nil => simp [parseLogStream]
  | cons l ls ih => simp [parseLogStream, ih, List.append_assoc]

/-- C10: persisting a `ParseState` with `update_match_state` and loading it
back with `get_match_state` restores `turn`, `last_actor` and `last_move`
but yields a state with no HP map — the `match_state` table has no column
for `hp_pct`, so a streaming call that loads state this way starts with an
empty `hp_pct`. -/
theorem getMatchState_updateMatchState (db : StateDb) (matchId : Nat) (s : ParseState) :
    (getMatchState (updateMatchState db matchId s) matchId).2 =
      ⟨s.turn, s.lastActor, s.lastMove, []⟩ := by
  unfold getMatchState updateMatchState
  rw [dbGet_dbPut]

/-- C7: whenever the normalized text contains `opposing` (or `foe`), the
owner classifier returns `opponent`, for every nicknames mapping and every
`my_side` argument — this check precedes and overrides side tokens and
nickname matches. -/
theorem classifyOwner_opposing (t : Str) (nicknames : List (Str × List Str))
    (mySide : Option Str)
    (h : isSubstr (("opposing").toList) (normalizeName t) = true ∨
         isSubstr (("foe").toList) (normalizeName t) = true) :
    classifyOwner (some t) nicknames mySide = some (("opponent").toList) := by
  by_cases ht : t = []
  · exfalso
    subst ht
    revert h
    decide
  · have hcond : (isSubstr (("opposing").toList) (normalizeName t) ||
        isSubstr (("foe").toList) (normalizeName t)) = true := by
      rcases h with h | h
      · rw [h, Bool.true_or]
      · rw [h, Bool.or_true]
    simp only [classifyOwner]
    rw [if_neg ht, if_pos hcond]

theorem classifyOwner_opposing_witness :
    (isSubstr (("opposing").toList) (normalizeName (("The Opposing Cat").toList)) = true ∨
      isSubstr (("foe").toList) (normalizeName (("The Opposing Cat").toList)) = true) ∧
    classifyOwner (some (("The Opposing Cat").toList))
      [((("mine").toList), [(("Cat").toList)])] (some (("p2").toList)) =
      some (("opponent").toList) :=
  ⟨Or.inl (by decide),
   classifyOwner_opposing (("The Opposing Cat").toList)
     [((("mine").toList), [(("Cat").toList)])] (some (("p2").toList)) (Or.inl (by decide))⟩

theorem nameMatches_nil (nm : Str) : nameMatches nm [] = false := rfl

theorem any_filter_nonnil (nm : Str) (names : List Str) :
    (names.filter fun n => n ≠ []).any (nameMatches nm) = names.any (nameMatches nm) := by
  induction names with
  | nil => rfl
  | cons n rest ih =>
    rw [List.filter_cons, List.any_cons]
    by_cases h : n = []
    · subst h
      rw [if_neg (by simp), ih, nameMatches_nil, Bool.false_or]
    · rw [if_pos (by simp [h]), List.any_cons, ih]

theorem find?_isSome_eq_any {α : Type} (p : α → Bool) (l : List α) :
    (l.find? p).isSome = l.any p := by
  induction l with
  | nil => rfl
  | cons a t ih =>
    by_cases h : p a <;> simp [List.find?, h, ih]

theorem detectSideToken_eq (nm side : Str) (h : detectSideToken nm = some side) :
    side = ("p1").toList ∨ side = ("p2").toList := by
  unfold detectSideToken at h
  by_cases h0 : nm = []
  · rw [if_pos h0] at h
    exact absurd h (by simp)
  · rw [if_neg h0] at h
    obtain ⟨tok, _, htok⟩ := List.exists_of_findSome?_eq_some h
    by_cases h1 : (("p1").toList).isPrefixOf tok
    · rw [if_pos h1] at htok
      exact Or.inl (Option.some.inj htok).symm
    · rw [if_neg h1] at htok
      by_cases h2 : (("p2").toList).isPrefixOf tok
      · rw [if_pos h2] at htok
        exact Or.inr (Option.some.inj htok).symm
      · rw [if_neg h2] at htok
        exact absurd htok (by simp)

theorem inferHits_eq (nameList : List Str) (lines : List Str) :
    inferHits nameList lines =
      (specSlotHits (("p1").toList) nameList lines,
       specSlotHits (("p2").toList) nameList lines) := by
  induction lines with
  | nil => rfl
  | cons l rest ih =>
    unfold inferHits
    rw [ih]
    rcases hd : detectSideToken (normalizeName l) with _ | side
    · simp [specSlotHits, List.filter_cons, hd]
    · have hside := detectSideToken_eq _ _ hd
      rcases hf : nameList.find? (nameMatches (normalizeName l)) with _ | nm
      · have hany : nameList.any (nameMatches (normalizeName l)) = false := by
          rw [← find?_isSome_eq_any, hf]
          rfl
        simp [specSlotHits, List.filter_cons, hd, hany, hf]
      · have hany : nameList.any (nameMatches (normalizeName l)) = true := by
          rw [← find?_isSome_eq_any, hf]
          rfl
        rcases hside with hside | hside <;> subst hside <;>
          simp [specSlotHits, List.filter_cons, hd, hany, hf]

/-- C8: side inference counts at most one co-occurrence per line — a line
counts for its detected p1/p2 slot token exactly when at least one known
name matches (the loop stops at the first matching name, which does not
affect the count) — and returns the slot with the strictly greater count,
`unknown` (None) when the counts are equal, in particular when both are
zero. -/
theorem inferMySide_spec (lines myNames : List Str) :
    inferMySide lines myNames =
      (if specSlotHits (("p1").toList) myNames lines =
          specSlotHits (("p2").toList) myNames lines then none
       else if specSlotHits (("p2").toList) myNames lines <
          specSlotHits (("p1").toList) myNames lines then some (("p1").toList)
       else some (("p2").toList)) := by
  have hcong : ∀ slot, specSlotHits slot (myNames.filter fun n => n ≠ []) lines =
      specSlotHits slot myNames lines := by
    intro slot
    unfold specSlotHits
    congr 1
    apply List.filter_congr
    intro l _
    rw [any_filter_nonnil]
  simp only [inferMySide]
  by_cases h0 : (myNames.filter fun n => n ≠ []) = []
  · rw [if_pos h0]
    have hz : ∀ slot, specSlotHits slot myNames lines = 0 := by
      intro slot
      rw [← hcong, h0]
      simp [specSlotHits]
    rw [hz, hz]
    simp
  · rw [if_neg h0]
    have h1 : (inferHits (myNames.filter fun n => n ≠ []) lines).1 =
        specSlotHits (("p1").toList) myNames lines := by
      rw [inferHits_eq]
      exact hcong _
    have h2 : (inferHits (myNames.filter fun n => n ≠ []) lines).2 =
        specSlotHits (("p2").toList) myNames lines := by
      rw [inferHits_eq]
      exact hcong _
    rw [h1, h2]
    split_ifs <;> first | rfl | omega

/-- C9 counterexample: with winner and player1 both present as the empty
string, the normalized names are equal, yet no label is produced — the
source's truthiness guard rejects empty strings before normalizing. -/
theorem computeResult_empty_cex :
    normalizeName ([] : Str) = normalizeName ([] : Str) ∧
    computeResult (some []) (some []) none ≠ some (("Won").toList) := by
  constructor
  · rfl
  · decide

/-- C9 (amended): the result label is `Won` when winner and player1 are both
present, non-empty and normalize-equal; `Lost` when winner and player1 are
present and non-empty, the `Won` test fails, and player2 is present,
non-empty and normalize-equal to the winner; and absent otherwise —
including whenever winner or player1 is missing or empty. -/
theorem computeResult_eq_spec (w p1 p2 : Option Str) :
    computeResult w p1 p2 = computeResultSpec w p1 p2 := by
  rcases w with _ | w
  · rfl
  · rcases p1 with _ | p1
    · simp [computeResult, computeResultSpec, optTruthy]
    · by_cases hw : w = []
      · subst hw
        simp [computeResult, computeResultSpec, optTruthy]
      · by_cases hp1 : p1 = []
        · subst hp1
          simp [computeResult, computeResultSpec, optTruthy]
        · by_cases heq : normalizeName w = normalizeName p1
          · simp [computeResult, computeResultSpec, optTruthy, hw, hp1, heq]
          · rcases p2 with _ | p2
            · simp [computeResult, computeResultSpec, optTruthy, hw, hp1, heq]
            · by_cases hp2 : p2 = []
              · subst hp2
                simp [computeResult, computeResultSpec, optTruthy, hw, hp1, heq]
              · by_cases heq2 : normalizeName w = normalizeName p2
                · simp [computeResult, computeResultSpec, optTruthy, hw, hp1, heq, hp2, heq2]
                · simp [computeResult, computeResultSpec, optTruthy, hw, hp1, heq, hp2, heq2]

/-- C2 counterexample: on `|-damage||50%` the HP field parses (to 50) and
the target-key is the empty string; the claim then demands an hp_pct update
and an event with absent values (first observation), but the code's
truthiness test on the key skips the bookkeeping: the event keeps
`value_low = value_high = 50` and `hp_pct` is left untouched. -/
theorem protocolDamage_emptyKey_cex :
    (splitOnChar '|' exEmptyKeyLine).getD 1 [] = ("-damage").toList ∧
    stripWs ((splitOnChar '|' exEmptyKeyLine).getD 2 []) = [] ∧
    parseReplayHp ((splitOnChar '|' exEmptyKeyLine).getD 3 []) = some 50 ∧
    emptyState.hpPct = [] ∧
    (parseLogStream [exEmptyKeyLine] emptyState).1 =
      [⟨("damage").toList, none, some [], none, none, some 50, some 50, exEmptyKeyLine⟩] ∧
    (parseLogStream [exEmptyKeyLine] emptyState).2.1.hpPct = [] := by
  decide

/-- C4 counterexample: the narrative line `X lost 3% - 1% from A's M` emits
a damage event with `value_low = 3 > value_high = 1`: the range patterns do
not enforce the claimed ordering. -/
theorem values_inverted_cex :
    (parseLogStream [exInvertedRangeLine] emptyState).1.map
        (fun e => (e.valueLow, e.valueHigh)) = [(some 3, some 1)] ∧
    ¬ ((3 : ℚ) ≤ 1) := by
  decide

/-- C3 counterexample: on `X lost 3% from A's M, lost 1% - 2%` the
attributed-range pattern fails, the attributed-single-value pattern matches
(actor `A`, value 3), yet the emitted event carries the bare-range fields
(rolling actor, values 1–2): the code tries the bare-range pattern before
the attributed single-value pattern, not after as the claim orders them. -/
theorem cascade_order_cex :
    rangeFromSearch exCascadeLine = none ∧
    (dmgFromSearch exCascadeLine).map (fun g => (g.actor, g.low.val)) =
      some ((("A").toList), 3) ∧
    (parseLogStream [exCascadeLine] emptyState).1.map
        (fun e => (e.actor, e.valueLow, e.valueHigh)) = [(none, some 1, some 2)] := by
  decide

/-- C5 counterexample: the worked narrative example's event has target
`Opposing Giraffe` — the attributed-pattern branch only strips whitespace
and never applies `clean_damage_target`, so the `Opposing` prefix stays. -/
theorem narrative_example_target_cex :
    (parseLogStream [exNarrativeLine] emptyState).1.map Event.target =
      [some (("Opposing Giraffe").toList)] ∧
    ("Opposing Giraffe").toList ≠ ("Giraffe").toList := by
  decide

theorem qSub_eq (a b : ℚ) : qSub a b = a - b := by
  have ha : ((a.den : ℚ)) ≠ 0 := by
    exact_mod_cast a.den_nz
  have hb : ((b.den : ℚ)) ≠ 0 := by
    exact_mod_cast b.den_nz
  have hna : ((a.num : ℚ)) = a * a.den := (div_eq_iff ha).mp (Rat.num_div_den a)
  have hnb : ((b.num : ℚ)) = b * b.den := (div_eq_iff hb).mp (Rat.num_div_den b)
  rw [qSub, Rat.divInt_eq_div]
  push_cast
  field_simp
  linear_combination (b.den : ℚ) * hna - (a.den : ℚ) * hnb

theorem qMul_eq (a b : ℚ) : qMul a b = a * b := by
  have ha : ((a.den : ℚ)) ≠ 0 := by
    exact_mod_cast a.den_nz
  have hb : ((b.den : ℚ)) ≠ 0 := by
    exact_mod_cast b.den_nz
  have hna : ((a.num : ℚ)) = a * a.den := (div_eq_iff ha).mp (Rat.num_div_den a)
  have hnb : ((b.num : ℚ)) = b * b.den := (div_eq_iff hb).mp (Rat.num_div_den b)
  rw [qMul, Rat.divInt_eq_div]
  push_cast
  field_simp
  linear_combination (b.num : ℚ) * hna + a * (a.den : ℚ) * hnb

theorem qDiv_eq (a b : ℚ) : qDiv a b = a / b := by
  by_cases h : b = 0
  · subst h
    simp [qDiv]
  · have ha : ((a.den : ℚ)) ≠ 0 := by
      exact_mod_cast a.den_nz
    have hb : ((b.den : ℚ)) ≠ 0 := by
      exact_mod_cast b.den_nz
    have hbn : ((b.num : ℚ)) ≠ 0 := by
      exact_mod_cast Rat.num_ne_zero.mpr h
    have hna : ((a.num : ℚ)) = a * a.den := (div_eq_iff ha).mp (Rat.num_div_den a)
    have hnb : ((b.num : ℚ)) = b * b.den := (div_eq_iff hb).mp (Rat.num_div_den b)
    rw [qDiv, Rat.divInt_eq_div]
    push_cast
    field_simp
    linear_combination ((b.den : ℚ) * b) * hna - (a * (a.den : ℚ)) * hnb

theorem qMax_eq (a b : ℚ) : qMax a b = max a b := by
  unfold qMax
  rcases lt_trichotomy a b with h | h | h
  · rw [if_pos h, max_eq_right h.le]
  · subst h
    rw [if_neg (lt_irrefl a), max_self]
  · rw [if_neg (not_lt.mpr h.le), max_eq_left h.le]

theorem NumLit.val_eq (n : NumLit) :
    n.val = (natOfDigits n.ip : ℚ) + (natOfDigits n.fp : ℚ) / ((10 : ℚ) ^ n.fp.length) := by
  have hB : ((10 : ℚ) ^ n.fp.length) ≠ 0 := pow_ne_zero _ (by norm_num)
  rw [NumLit.val, Rat.divInt_eq_div]
  field_simp

/-- C5 (amended): parsing the worked narrative example line from any prior
state emits exactly one Damage event with actor `Eddie bear`, target
`Opposing Giraffe` (the attributed branch strips surrounding whitespace only
and never cleans the `Opposing` prefix), move `Close Combat`, and
`value_low = value_high = 23.5`; the rolling state is returned unchanged. -/
theorem narrative_example_parse (s : ParseState) :
    parseLogStream [exNarrativeLine] s =
      ([⟨("damage").toList, some (("Eddie bear").toList),
          some (("Opposing Giraffe").toList), some (("Close Combat").toList),
          s.turn, some ((47 : ℚ)/2), some ((47 : ℚ)/2), exNarrativeLine⟩],
       s, [⟨s.turn, exNarrativeLine⟩]) := by
  have hval : NumLit.val ⟨("23").toList, ("5").toList⟩ = (47 : ℚ)/2 := by
    have h1 : NumLit.val ⟨("23").toList, ("5").toList⟩ = Rat.divInt 235 10 := by decide
    rw [h1, Rat.divInt_eq_div]
    norm_num
  have hstrip : stripWs exNarrativeLine = exNarrativeLine := by decide
  have hA : turnMatch exNarrativeLine = none := by decide
  have hB : moveUsedMatch exNarrativeLine = none := by decide
  have hC : itemCascade exNarrativeLine = none := by decide
  have hD : rangeFromSearch exNarrativeLine = none := by decide
  have hE : rangeSearch exNarrativeLine = none := by decide
  have hF : dmgFromSearch exNarrativeLine =
      some ⟨("Opposing Giraffe").toList, ⟨("23").toList, ("5").toList⟩,
        ("Eddie bear").toList, ("Close Combat").toList⟩ := by decide
  have hT : stripWs (("Opposing Giraffe").toList) = ("Opposing Giraffe").toList := by decide
  have hAc : stripWs (("Eddie bear").toList) = ("Eddie bear").toList := by decide
  have hM : stripWs (("Close Combat").toList) = ("Close Combat").toList := by decide
  simp only [parseLogStream, stepLine, hstrip]
  rw [if_neg (by decide), if_neg (by decide)]
  simp only [stepNarrative, narTurn, narActorMove, itemEvents, damageCascade,
    hA, hB, hC, hD, hE, hF, hT, hAc, hM, hval]
  simp

theorem filter_itemEvents (line : Str) (turn : Option Int) :
    (itemEvents line turn).filter isDamageEvent = [] := by
  unfold itemEvents
  cases itemCascade line
  · rfl
  · rfl

theorem filter_damageCascade (line : Str) (turn : Option Int) (a m : Option Str) :
    (damageCascade line turn a m).filter isDamageEvent = damageCascade line turn a m := by
  unfold damageCascade
  cases rangeFromSearch line
  · cases rangeSearch line
    · cases dmgFromSearch line
      · cases dmgSearch line
        · rfl
        · rfl
      · rfl
    · rfl
  · rfl

/-- C3 (amended): for a narrative line, the damage events among the parse
output are exactly those of the cascade that tries, in order: (a) the
attributed range pattern, (b) the bare range pattern, (c) the attributed
single-value pattern, (d) the bare single-value pattern — the first pattern
that matches alone determines the emitted Damage event's fields, and the
later patterns are ignored for that line. -/
theorem narrative_damage_cascade (s : ParseState) (l : Str)
    (h1 : stripWs l = l) (h2 : l ≠ []) (h3 : ¬ l.head? = some '|') :
    (parseLogStream [l] s).1.filter isDamageEvent =
      damageCascade l (narTurn s l) (narActorMove s l).1 (narActorMove s l).2 := by
  simp only [parseLogStream, stepLine, h1]
  rw [if_neg h2, if_neg h3]
  simp only [stepNarrative, List.append_nil]
  rw [List.filter_append, filter_itemEvents, filter_damageCascade, List.nil_append]

theorem narrative_damage_cascade_witness :
    (stripWs (("A lost 5%").toList) = ("A lost 5%").toList ∧
      ("A lost 5%").toList ≠ ([] : Str) ∧
      ¬ ((("A lost 5%").toList).head? = some '|')) ∧
    (parseLogStream [("A lost 5%").toList] emptyState).1.filter isDamageEvent =
      damageCascade (("A lost 5%").toList) (narTurn emptyState (("A lost 5%").toList))
        (narActorMove emptyState (("A lost 5%").toList)).1
        (narActorMove emptyState (("A lost 5%").toList)).2 :=
  ⟨⟨by decide, by decide, by decide⟩,
   narrative_damage_cascade emptyState (("A lost 5%").toList)
     (by decide) (by decide) (by decide)⟩

theorem parseReplayLine_damage_some (line : Str) (p : ℚ)
    (hlen : 3 < (splitOnChar '|' line).length)
    (htag : (splitOnChar '|' line).getD 1 [] = ("-damage").toList)
    (hhp : parseReplayHp ((splitOnChar '|' line).getD 3 []) = some p) :
    parseReplayLine line =
      { event := some (("damage").toList),
        target := some (cleanDamageTarget (stripTag ((splitOnChar '|' line).getD 2 []))),
        targetKey := some (stripWs ((splitOnChar '|' line).getD 2 [])),
        currentHpPct := some p,
        valueLow := some p,
        valueHigh := some p } := by
  simp only [parseReplayLine]
  rw [htag]
  rw [if_neg (show ¬ (splitOnChar '|' line).length < 2 by omega)]
  rw [if_neg (fun h => absurd h.1 (by decide))]
  rw [if_neg (fun h => absurd h.1 (by decide))]
  rw [if_neg (fun h => absurd h.1 (by decide))]
  rw [if_pos ⟨rfl, hlen⟩]
  rw [hhp]

/-- C2 (amended): for every protocol `-damage` line whose HP field parses to
a percentage `p` and whose target-key (`parts[2]` stripped) is non-empty,
from any prior state: the hp_pct entry for that key is updated to `p`; one
Damage event is emitted whose values are both absent when the key had no
previous entry and otherwise both `max(previous − p, 0)` (which is ≥ 0, the
second conjunct); its actor and move default to the rolling last actor and
move; turn, last actor and last move are unchanged. -/
theorem protocol_damage_spec (s : ParseState) (line : Str) (p : ℚ)
    (h1 : stripWs line = line) (h2 : line ≠ []) (h3 : line.head? = some '|')
    (hlen : 3 < (splitOnChar '|' line).length)
    (htag : (splitOnChar '|' line).getD 1 [] = ("-damage").toList)
    (hkey : stripWs ((splitOnChar '|' line).getD 2 []) ≠ [])
    (hhp : parseReplayHp ((splitOnChar '|' line).getD 3 []) = some p) :
    parseLogStream [line] s =
      ([{ eventType := ("damage").toList,
          actor := s.lastActor,
          target := some (cleanDamageTarget (stripTag ((splitOnChar '|' line).getD 2 []))),
          move := s.lastMove,
          turn := s.turn,
          valueLow := (getMap (stripWs ((splitOnChar '|' line).getD 2 [])) s.hpPct).map
            (fun pr => max (pr - p) 0),
          valueHigh := (getMap (stripWs ((splitOnChar '|' line).getD 2 [])) s.hpPct).map
            (fun pr => max (pr - p) 0),
          rawLine := line }],
       { turn := s.turn, lastActor := s.lastActor, lastMove := s.lastMove,
         hpPct := updMap (stripWs ((splitOnChar '|' line).getD 2 [])) p s.hpPct },
       [⟨s.turn, line⟩]) ∧
    (∀ pr : ℚ, getMap (stripWs ((splitOnChar '|' line).getD 2 [])) s.hpPct = some pr →
      (0 : ℚ) ≤ max (pr - p) 0) := by
  have hpr := parseReplayLine_damage_some line p hlen htag hhp
  constructor
  · simp only [parseLogStream, stepLine, h1]
    rw [if_neg h2, if_pos h3]
    simp only [stepProtocol, hpr]
    rw [if_neg (by decide), if_neg (by decide)]
    rw [if_pos (by decide)]
    rw [if_pos hkey]
    cases hm : getMap (stripWs ((splitOnChar '|' line).getD 2 [])) s.hpPct
    · simp [Option.map]
    · simp [Option.map, qMax_eq, qSub_eq]
  · intro pr _
    exact le_max_right _ _

theorem protocol_damage_spec_witness :
    ((splitOnChar '|' exProtoDamageLine).getD 1 [] = ("-damage").toList ∧
     stripWs ((splitOnChar '|' exProtoDamageLine).getD 2 []) = ("p2a: Cat").toList ∧
     parseReplayHp ((splitOnChar '|' exProtoDamageLine).getD 3 []) = some 62 ∧
     exCatState.hpPct = [((("p2a: Cat").toList), 100)]) ∧
    parseLogStream [exProtoDamageLine] exCatState =
      ([{ eventType := ("damage").toList, actor := none,
          target := some (("Cat").toList), move := none, turn := none,
          valueLow := some 38, valueHigh := some 38, rawLine := exProtoDamageLine }],
       { turn := none, lastActor := none, lastMove := none,
         hpPct := [((("p2a: Cat").toList), 62)] },
       [⟨none, exProtoDamageLine⟩]) := by
  constructor
  · exact ⟨by decide, by decide, by decide, by decide⟩
  · have h := (protocol_damage_spec exCatState exProtoDamageLine 62
      (by decide) (by decide) (by decide) (by decide) (by decide) (by decide)
      (by decide)).1
    have hK : stripWs ((splitOnChar '|' exProtoDamageLine).getD 2 []) =
        ("p2a: Cat").toList := by decide
    have hT : cleanDamageTarget (stripTag ((splitOnChar '|' exProtoDamageLine).getD 2 [])) =
        ("Cat").toList := by decide
    rw [hK, hT] at h
    have hg : getMap (("p2a: Cat").toList) exCatState.hpPct = some 100 := by decide
    have hu : updMap (("p2a: Cat").toList) 62 exCatState.hpPct =
        [((("p2a: Cat").toList), 62)] := by decide
    rw [hg, hu] at h
    simp only [Option.map_some'] at h
    have hv : max ((100 : ℚ) - 62) 0 = (38 : ℚ) := by norm_num
    rw [hv] at h
    exact h

theorem parseReplayLine_values_eq (l : Str) :
    (parseReplayLine l).valueLow = (parseReplayLine l).valueHigh := by
  simp only [parseReplayLine]
  repeat' split
  all_goals rfl

theorem eventValuesWf_of_values_eq (e : Event) (h : e.valueLow = e.valueHigh) :
    eventValuesWf e = true := by
  unfold eventValuesWf
  rw [h]
  cases hv : e.valueHigh
  · rfl
  · simp

set_option maxHeartbeats 1000000 in
theorem stepProtocol_values_eq (s : ParseState) (line : Str) :
    ∀ e ∈ (stepProtocol s line).1, e.valueLow = e.valueHigh := by
  intro e he
  have hvv := parseReplayLine_values_eq line
  unfold stepProtocol at he
  rcases hpr : parseReplayLine line with ⟨t, a, m, tg, ev, tk, chp, vl, vh⟩
  rw [hpr] at hvv he
  simp only at hvv he
  rcases ev with _ | ev
  · simp at he
  · repeat' split at he
    all_goals try (rw [List.mem_singleton] at he; subst he)
    all_goals first
      | simp at he
      | rfl
      | exact hvv

theorem itemEvents_values_wf (line : Str) (turn : Option Int) :
    ∀ e ∈ itemEvents line turn, eventValuesWf e = true := by
  intro e he
  unfold itemEvents at he
  split at he
  · rw [List.mem_singleton] at he
    subst he
    rfl
  · simp at he

theorem damageCascade_values_wf (line : Str) (turn : Option Int) (a m : Option Str)
    (h : rangeLitsOrdered line = true) :
    ∀ e ∈ damageCascade line turn a m, eventValuesWf e = true := by
  intro e he
  unfold rangeLitsOrdered at h
  rw [Bool.and_eq_true] at h
  unfold damageCascade at he
  split at he
  · rename_i g hg
    rw [hg] at h
    rw [List.mem_singleton] at he
    subst he
    unfold eventValuesWf
    simpa using h.1
  · split at he
    · rename_i g hg
      rw [hg] at h
      rw [List.mem_singleton] at he
      subst he
      unfold eventValuesWf
      simpa using h.2
    · split at he
      · rw [List.mem_singleton] at he
        subst he
        exact eventValuesWf_of_values_eq _ rfl
      · split at he
        · rw [List.mem_singleton] at he
          subst he
          exact eventValuesWf_of_values_eq _ rfl
        · simp at he

theorem stepLine_values_wf (s : ParseState) (l : Str)
    (h : rangeLitsOrdered (stripWs l) = true) :
    ∀ e ∈ (stepLine s l).1, eventValuesWf e = true := by
  intro e he
  simp only [stepLine] at he
  by_cases hl : stripWs l = []
  · rw [if_pos hl] at he
    simp at he
  · rw [if_neg hl] at he
    by_cases hp : (stripWs l).head? = some '|'
    · rw [if_pos hp] at he
      exact eventValuesWf_of_values_eq e (stepProtocol_values_eq s (stripWs l) e he)
    · rw [if_neg hp] at he
      simp only [stepNarrative] at he
      rw [List.mem_append] at he
      rcases he with he | he
      · exact itemEvents_values_wf _ _ e he
      · exact damageCascade_values_wf _ _ _ _ h e he

theorem parseLogStream_values_ordered (lines : List Str) (s : ParseState)
    (h : ∀ l ∈ lines, rangeLitsOrdered (stripWs l) = true) :
    ∀ e ∈ (parseLogStream lines s).1, eventValuesWf e = true := by
  induction lines generalizing s with
  | nil =>
    intro e he
    simp [parseLogStream] at he
  | cons l ls ih =>
    intro e he
    simp only [parseLogStream] at he
    rw [List.mem_append] at he
    rcases he with he | he
    · exact stepLine_values_wf s l (h l (List.mem_cons_self l ls)) e he
    · exact ih (stepLine s l).2.1 (fun l' hl' => h l' (List.mem_cons_of_mem l hl')) e he

theorem eventValuesPaired_of_values_eq (e : Event) (h : e.valueLow = e.valueHigh) :
    eventValuesPaired e = true := by
  unfold eventValuesPaired
  rw [h]
  simp

theorem eventValuesPaired_of_wf (e : Event) (h : eventValuesWf e = true) :
    eventValuesPaired e = true := by
  unfold eventValuesWf at h
  rw [Bool.and_eq_true] at h
  exact h.1

theorem damageCascade_values_paired (line : Str) (turn : Option Int) (a m : Option Str) :
    ∀ e ∈ damageCascade line turn a m, eventValuesPaired e = true := by
  intro e he
  unfold damageCascade at he
  revert he
  cases rangeFromSearch line
  · cases rangeSearch line
    · cases dmgFromSearch line
      · cases dmgSearch line
        · intro he
          simp at he
        · intro he
          rw [List.mem_singleton] at he
          subst he
          rfl
      · intro he
        rw [List.mem_singleton] at he
        subst he
        rfl
    · intro he
      rw [List.mem_singleton] at he
      subst he
      rfl
  · intro he
    rw [List.mem_singleton] at he
    subst he
    rfl

theorem stepLine_values_paired (s : ParseState) (l : Str) :
    ∀ e ∈ (stepLine s l).1, eventValuesPaired e = true := by
  intro e he
  simp only [stepLine] at he
  by_cases hl : stripWs l = []
  · rw [if_pos hl] at he
    simp at he
  · rw [if_neg hl] at he
    by_cases hp : (stripWs l).head? = some '|'
    · rw [if_pos hp] at he
      exact eventValuesPaired_of_values_eq e (stepProtocol_values_eq s (stripWs l) e he)
    · rw [if_neg hp] at he
      simp only [stepNarrative] at he
      rw [List.mem_append] at he
      rcases he with he | he
      · exact eventValuesPaired_of_wf e (itemEvents_values_wf _ _ e he)
      · exact damageCascade_values_paired _ _ _ _ e he

theorem parseLogStream_values_paired (lines : List Str) (s : ParseState) :
    ∀ e ∈ (parseLogStream lines s).1, eventValuesPaired e = true := by
  induction lines generalizing s with
  | nil =>
    intro e he
    simp [parseLogStream] at he
  | cons l ls ih =>
    intro e he
    simp only [parseLogStream] at he
    rw [List.mem_append] at he
    rcases he with he | he
    · exact stepLine_values_paired s l e he
    · exact ih (stepLine s l).2.1 e he

/-- C4 (amended): every event produced by parsing — either dialect, any line
sequence, any prior state — has `value_low`/`value_high` both present or
both absent, unconditionally (first conjunct); and provided every narrative
range-pattern match in the input captures its two percent literals in
non-decreasing order, `value_low ≤ value_high` whenever both are present
(second conjunct; protocol and single-value events always carry two equal
values, but a line such as `X lost 3% - 1% from A's M` yields an inverted
pair, so the ordering needs the proviso). -/
theorem parseLogStream_values_wf (lines : List Str) (s : ParseState) :
    (∀ e ∈ (parseLogStream lines s).1, eventValuesPaired e = true) ∧
    ((∀ l ∈ lines, rangeLitsOrdered (stripWs l) = true) →
      ∀ e ∈ (parseLogStream lines s).1, eventValuesWf e = true) :=
  ⟨parseLogStream_values_paired lines s,
   fun h => parseLogStream_values_ordered lines s h⟩

theorem parseLogStream_values_wf_witness :
    (parseLogStream [exInvertedRangeLine] emptyState).1.all eventValuesPaired = true ∧
    ([("|turn|3").toList, ("A lost 5% - 7% from B's M").toList,
        ("C lost 2%").toList].all (fun l => rangeLitsOrdered (stripWs l))) = true ∧
    (parseLogStream [("|turn|3").toList, ("A lost 5% - 7% from B's M").toList,
        ("C lost 2%").toList] emptyState).1.all eventValuesWf = true :=
  ⟨List.all_eq_true.mpr ((parseLogStream_values_wf [exInvertedRangeLine] emptyState).1),
   by decide,
   List.all_eq_true.mpr
     ((parseLogStream_values_wf
       [("|turn|3").toList, ("A lost 5% - 7% from B's M").toList, ("C lost 2%").toList]
       emptyState).2 (by decide))⟩

theorem takeWhile_append_all {p : Char → Bool} (ds rest : Str)
    (h : ∀ c ∈ ds, p c = true) :
    (ds ++ rest).takeWhile p = ds ++ rest.takeWhile p := by
  induction ds with
  | nil => simp
  | cons c cs ih =>
    rw [List.cons_append, List.takeWhile_cons, h c (List.mem_cons_self c cs),
      ih (fun x hx => h x (List.mem_cons_of_mem c hx))]
    rfl

theorem takeWhile_head_false {p : Char → Bool} (t : Str)
    (h : ∀ c, t.head? = some c → p c = false) :
    t.takeWhile p = [] := by
  cases t with
  | nil => rfl
  | cons c ts =>
    rw [List.takeWhile_cons, h c rfl]
    rfl

theorem digit_not_pyspace (c : Char) (h : c.isDigit = true) : isPySpace c = false := by
  cases hc : isPySpace c
  · rfl
  · exfalso
    unfold isPySpace at hc
    simp only [Bool.or_eq_true, decide_eq_true_eq] at hc
    rcases hc with ((((h1 | h1) | h1) | h1) | h1) | h1 <;> subst h1 <;>
      simp [Char.isDigit] at h

theorem numCands_render_eq (n : NumLit) (tail : Str) (hw : n.wf)
    (htail : ∀ c, tail.head? = some c → c.isDigit = false)
    (hdot : n.fp = [] → tail.head? ≠ some '.') :
    numCands (n.render ++ tail) =
      if n.fp = [] then [(n, tail)]
      else [(n, tail), (⟨n.ip, []⟩, '.' :: (n.fp ++ tail))] := by
  obtain ⟨hip, hipd, hfpd⟩ := hw
  rcases n with ⟨ip, fp⟩
  simp only at hip hipd hfpd hdot ⊢
  by_cases hfp : fp = []
  · subst hfp
    rw [if_pos rfl]
    have hr : NumLit.render ⟨ip, []⟩ = ip := by
      simp [NumLit.render]
    rw [hr]
    have htw : (ip ++ tail).takeWhile Char.isDigit = ip := by
      rw [takeWhile_append_all ip tail hipd, takeWhile_head_false tail htail,
        List.append_nil]
    simp only [numCands, htw]
    rw [if_neg (by simp [hip]), List.drop_left]
    rcases tail with _ | ⟨c, ts⟩
    · rfl
    · have hc : c ≠ '.' := by
        intro hceq
        exact (hdot rfl) (by subst hceq; rfl)
      split
      · rename_i r2 heq
        rw [List.cons.injEq] at heq
        exact absurd heq.1 hc
      · rfl
  · rw [if_neg hfp]
    have hr : NumLit.render ⟨ip, fp⟩ ++ tail = ip ++ ('.' :: (fp ++ tail)) := by
      simp [NumLit.render, hfp]
    rw [hr]
    have htw : (ip ++ ('.' :: (fp ++ tail))).takeWhile Char.isDigit = ip := by
      rw [takeWhile_append_all ip _ hipd, List.takeWhile_cons,
        show ('.' : Char).isDigit = false from by decide]
      simp
    simp only [numCands, htw]
    rw [if_neg (by simp [hip]), List.drop_left]
    have htw2 : (fp ++ tail).takeWhile Char.isDigit = fp := by
      rw [takeWhile_append_all fp tail hfpd, takeWhile_head_false tail htail,
        List.append_nil]
    simp only [htw2]
    rw [if_neg (by simp [hfp]), List.drop_left]

theorem pctAt_render (n : NumLit) (ts : Str) (hw : n.wf) :
    pctAt (n.render ++ '%' :: ts) = some n := by
  unfold pctAt
  rw [numCands_render_eq n ('%' :: ts) hw
    (fun c hc => by simp at hc; subst hc; decide)
    (fun _ hc => by simp at hc)]
  by_cases hfp : n.fp = []
  · rw [if_pos hfp]
    rfl
  · rw [if_neg hfp]
    rfl

theorem reSearch_of_head {α : Type} (m : Str → Option α) (s : Str) (a : α)
    (h : m s = some a) : reSearch m s = some a := by
  cases s with
  | nil => exact h
  | cons c rest =>
    unfold reSearch
    rw [h]

theorem numCands_rest_suffix (s : Str) :
    ∀ nr ∈ numCands s, nr.2 <:+ s := by
  intro nr hnr
  simp only [numCands] at hnr
  by_cases h : (s.takeWhile Char.isDigit).isEmpty
  · rw [if_pos h] at hnr
    simp at hnr
  · rw [if_neg h] at hnr
    have hdrop : s.drop (s.takeWhile Char.isDigit).length <:+ s := List.drop_suffix _ _
    rcases hd : s.drop (s.takeWhile Char.isDigit).length with _ | ⟨c, r2⟩ <;>
      rw [hd] at hnr hdrop
    · rw [List.mem_singleton] at hnr
      rw [hnr]
      exact hdrop
    · split at hnr
      · rename_i r2' heq
        rw [List.cons.injEq] at heq
        obtain ⟨hceq, hr2eq⟩ := heq
        subst hceq
        subst hr2eq
        by_cases hf : (r2.takeWhile Char.isDigit).isEmpty
        · rw [if_pos hf, List.mem_singleton] at hnr
          rw [hnr]
          exact hdrop
        · rw [if_neg hf, List.mem_cons, List.mem_singleton] at hnr
          rcases hnr with hnr | hnr
          · rw [hnr]
            exact (List.drop_suffix _ r2).trans ((List.suffix_cons '.' r2).trans hdrop)
          · rw [hnr]
            exact hdrop
      · rw [List.mem_singleton] at hnr
        rw [hnr]
        exact hdrop

theorem pctAt_percent_mem (s : Str) (n : NumLit) (h : pctAt s = some n) :
    '%' ∈ s := by
  unfold pctAt at h
  obtain ⟨nr, hmem, hf⟩ := List.exists_of_findSome?_eq_some h
  have hsuf := numCands_rest_suffix s nr hmem
  rcases hr : nr.2 with _ | ⟨c, r⟩ <;> rw [hr] at hf
  · simp at hf
  · split at hf
    · rename_i r' heq
      rw [List.cons.injEq] at heq
      obtain ⟨hceq, _⟩ := heq
      subst hceq
      apply hsuf.subset
      rw [hr]
      exact List.mem_cons_self _ _
    · simp at hf

theorem reSearch_pctAt_none (s : Str) (h : '%' ∉ s) : reSearch pctAt s = none := by
  induction s with
  | nil => rfl
  | cons c rest ih =>
    unfold reSearch
    cases hp : pctAt (c :: rest) with
    | some n => exact absurd (pctAt_percent_mem _ _ hp) h
    | none => exact ih (fun hm => h (List.mem_cons_of_mem c hm))

theorem mem_render (n : NumLit) (c : Char) (h : c ∈ n.render) :
    c ∈ n.ip ∨ c = '.' ∨ c ∈ n.fp := by
  unfold NumLit.render at h
  rw [List.mem_append] at h
  rcases h with h | h
  · exact Or.inl h
  · by_cases hf : n.fp.isEmpty
    · rw [if_pos hf] at h
      simp at h
    · rw [if_neg hf, List.mem_cons] at h
      exact Or.inr h

theorem percent_not_mem_ratio (a b : NumLit) (ha : a.wf) (hb : b.wf) :
    '%' ∉ a.render ++ '/' :: b.render := by
  intro hmem
  rw [List.mem_append, List.mem_cons] at hmem
  rcases hmem with hmem | hmem | hmem
  · rcases mem_render a '%' hmem with h | h | h
    · exact absurd (ha.2.1 '%' h) (by decide)
    · exact absurd h (by decide)
    · exact absurd (ha.2.2 '%' h) (by decide)
  · exact absurd hmem (by decide)
  · rcases mem_render b '%' hmem with h | h | h
    · exact absurd (hb.2.1 '%' h) (by decide)
    · exact absurd h (by decide)
    · exact absurd (hb.2.2 '%' h) (by decide)

theorem ratioAt_render (a b : NumLit) (ha : a.wf) (hb : b.wf) :
    ratioAt (a.render ++ '/' :: b.render) = some (a, b) := by
  have hdw1 : ('/' :: b.render).dropWhile isPySpace = '/' :: b.render := by
    rw [List.dropWhile_cons, show isPySpace '/' = false from by decide]
    simp
  have hdw2 : b.render.dropWhile isPySpace = b.render := by
    obtain ⟨hbip, hbipd, _⟩ := hb
    rcases hb2 : b.ip with _ | ⟨d, ds⟩
    · exact absurd hb2 hbip
    · have hr : b.render = d :: (ds ++ (if b.fp.isEmpty then [] else '.' :: b.fp)) := by
        unfold NumLit.render
        rw [hb2]
        rfl
      rw [hr, List.dropWhile_cons,
        digit_not_pyspace d (hbipd d (by rw [hb2]; exact List.mem_cons_self d ds))]
      simp
  have hnb : (numCands b.render).head? = some (b, []) := by
    have h0 := numCands_render_eq b [] hb (fun c hc => by simp at hc)
      (fun _ hc => by simp at hc)
    rw [List.append_nil] at h0
    rw [h0]
    by_cases hfpb : b.fp = []
    · rw [if_pos hfpb]
      rfl
    · rw [if_neg hfpb]
      rfl
  unfold ratioAt
  rw [numCands_render_eq a ('/' :: b.render) ha
    (fun c hc => by simp at hc; subst hc; decide)
    (fun _ hc => by simp at hc)]
  by_cases hfp : a.fp = []
  · rw [if_pos hfp, List.findSome?_cons]
    simp only [hdw1, hdw2, hnb]
  · rw [if_neg hfp, List.findSome?_cons]
    simp only [hdw1, hdw2, hnb]

theorem parseReplayLine_damage_none (line : Str)
    (hlen : 3 < (splitOnChar '|' line).length)
    (htag : (splitOnChar '|' line).getD 1 [] = ("-damage").toList)
    (hhp : parseReplayHp ((splitOnChar '|' line).getD 3 []) = none) :
    parseReplayLine line = {} := by
  simp only [parseReplayLine]
  rw [htag]
  rw [if_neg (show ¬ (splitOnChar '|' line).length < 2 by omega)]
  rw [if_neg (fun h => absurd h.1 (by decide))]
  rw [if_neg (fun h => absurd h.1 (by decide))]
  rw [if_neg (fun h => absurd h.1 (by decide))]
  rw [if_pos ⟨rfl, hlen⟩]
  rw [hhp]

/-- C6: percent and ratio HP parsing.  (1) Every HP string of the exact form
`N%` (`N` a decimal numeral) parses to the value of `N`.  (2) Every string
`A/B` with `B > 0` parses to `(A/B)·100`.  (3) When `B ≤ 0` (i.e. `B = 0`,
since the pattern admits no sign) the parse yields no result, and (4) a
`-damage` line whose HP fragment fails to parse is skipped without
affecting the rest of the line: no event, no state change, and the line is
still retained as a log line. -/
theorem parseReplayHp_spec :
    (∀ n : NumLit, n.wf →
      parseReplayHp (n.render ++ [('%')]) =
        some ((natOfDigits n.ip : ℚ) + (natOfDigits n.fp : ℚ) / ((10 : ℚ) ^ n.fp.length))) ∧
    (∀ a b : NumLit, a.wf → b.wf → 0 < b.val →
      parseReplayHp (a.render ++ '/' :: b.render) = some (a.val / b.val * 100)) ∧
    (∀ a b : NumLit, a.wf → b.wf → b.val ≤ 0 →
      parseReplayHp (a.render ++ '/' :: b.render) = none) ∧
    (∀ (s : ParseState) (line : Str),
      stripWs line = line → line ≠ [] → line.head? = some '|' →
      3 < (splitOnChar '|' line).length →
      (splitOnChar '|' line).getD 1 [] = ("-damage").toList →
      parseReplayHp ((splitOnChar '|' line).getD 3 []) = none →
      parseLogStream [line] s = ([], s, [⟨s.turn, line⟩])) := by
  refine ⟨?_, ?_, ?_, ?_⟩
  · intro n hw
    have hne : n.render ++ ['%'] ≠ [] := by simp
    unfold parseReplayHp
    rw [if_neg hne]
    simp only [reSearch_of_head pctAt _ n (pctAt_render n [] hw)]
    rw [NumLit.val_eq]
  · intro a b ha hb hpos
    have hne : a.render ++ '/' :: b.render ≠ [] := by simp
    unfold parseReplayHp
    rw [if_neg hne]
    simp only [reSearch_pctAt_none _ (percent_not_mem_ratio a b ha hb),
      reSearch_of_head ratioAt _ (a, b) (ratioAt_render a b ha hb)]
    rw [if_pos hpos, qMul_eq, qDiv_eq]
  · intro a b ha hb hle
    have hne : a.render ++ '/' :: b.render ≠ [] := by simp
    unfold parseReplayHp
    rw [if_neg hne]
    simp only [reSearch_pctAt_none _ (percent_not_mem_ratio a b ha hb),
      reSearch_of_head ratioAt _ (a, b) (ratioAt_render a b ha hb)]
    rw [if_neg (not_lt.mpr hle)]
  · intro s line h1 h2 h3 hlen htag hhp
    have hpr := parseReplayLine_damage_none line hlen htag hhp
    simp only [parseLogStream, stepLine, h1]
    rw [if_neg h2, if_pos h3]
    simp only [stepProtocol, hpr]
    rfl

theorem parseReplayHp_spec_witness :
    parseReplayHp (("23.5%").toList) = some ((47 : ℚ)/2) ∧
    parseReplayHp (("62/100").toList) = some 62 ∧
    parseReplayHp (("5/0").toList) = none ∧
    parseLogStream [("|-damage|p2a: Cat|5/0").toList] emptyState =
      ([], emptyState, [⟨none, ("|-damage|p2a: Cat|5/0").toList⟩]) := by
  obtain ⟨h1, h2, h3, h4⟩ := parseReplayHp_spec
  refine ⟨?_, ?_, ?_, ?_⟩
  · have h := h1 ⟨("23").toList, ("5").toList⟩ ⟨by decide, by decide, by decide⟩
    have hv : ((natOfDigits (("23").toList) : ℚ) +
        (natOfDigits (("5").toList) : ℚ) / ((10 : ℚ) ^ ((("5").toList)).length)) =
        (47 : ℚ)/2 := by
      rw [show natOfDigits (("23").toList) = 23 from by decide,
        show natOfDigits (("5").toList) = 5 from by decide,
        show ((("5").toList)).length = 1 from by decide]
      norm_num
    rw [hv] at h
    exact h
  · have h := h2 ⟨("62").toList, []⟩ ⟨("100").toList, []⟩
      ⟨by decide, by decide, by decide⟩ ⟨by decide, by decide, by decide⟩ (by decide)
    have hv : (NumLit.val ⟨("62").toList, []⟩) / (NumLit.val ⟨("100").toList, []⟩) * 100 =
        (62 : ℚ) := by
      rw [show NumLit.val ⟨("62").toList, []⟩ = (62 : ℚ) from by decide,
        show NumLit.val ⟨("100").toList, []⟩ = (100 : ℚ) from by decide]
      norm_num
    rw [hv] at h
    exact h
  · exact h3 ⟨("5").toList, []⟩ ⟨("0").toList, []⟩
      ⟨by decide, by decide, by decide⟩ ⟨by decide, by decide, by decide⟩ (by decide)
  · exact h4 emptyState (("|-damage|p2a: Cat|5/0").toList)
      (by decide) (by decide) (by decide) (by decide) (by decide) (by decide)
